import Mathlib

/-!
Shallow embedding of the record reconciliation core of the scraper script
(src/scraper.ts): per-source deduplication, cross-source merging keyed by
app title, and the bothAppStores provenance flag, together with a model of
the retrieval pipeline (Promise.all / catch / flat) used by the script.
-/

namespace Scraper

/-- JavaScript truthiness of an optional string value as used on line 220 of
src/scraper.ts: an absent value (undefined) and the empty string are falsy,
every other string is truthy. -/
def truthy : Option String → Bool
  | none => false
  | some s => decide (s ≠ "")

/-- A raw source record as delivered by one of the two store scrapers.
Fields of the underlying JavaScript object may be absent at runtime, so
title, searchTerm, summary and description are optional; `extra` carries
the remaining source-specific fields, which are opaque to the core. -/
structure SrcApp where
  title : Option String := none
  searchTerm : Option String := none
  summary : Option String := none
  description : Option String := none
  extra : List (String × String) := []
deriving Repr, DecidableEq

/-- Variant discrimination from src/scraper.ts lines 70-72: a record is a
Google record iff it carries the "summary" property. -/
def isGoogleApp (app : SrcApp) : Bool :=
  app.summary.isSome

/-- Modelled from the spec: the CombinedApp class lives in src/interfaces.ts,
which is absent from src/. Per the data model section, a Combined Record has
the two provenance markers titleGoogle and titleApple and, for every field of
each source variant, a corresponding field populated only from the
contributing source; the per-source field block is modelled as the whole
contributing record. -/
structure CombinedApp where
  titleGoogle : Option String := none
  titleApple : Option String := none
  googleData : Option SrcApp := none
  appleData : Option SrcApp := none
deriving Repr, DecidableEq

/-- Modelled from the spec: CombinedApp.addGoogleAppData from the missing
src/interfaces.ts. Field population copies every relevant field of the source
record into the combined record (last-write-wins, whole-record overwrite) and
sets the provenance marker titleGoogle to the record's title. -/
def CombinedApp.addGoogleAppData (c : CombinedApp) (app : SrcApp) : CombinedApp :=
  { c with titleGoogle := app.title, googleData := some app }

/-- Modelled from the spec: CombinedApp.addAppleAppData from the missing
src/interfaces.ts, symmetric to addGoogleAppData. -/
def CombinedApp.addAppleAppData (c : CombinedApp) (app : SrcApp) : CombinedApp :=
  { c with titleApple := app.title, appleData := some app }

/-- Modelled from the spec: `new CombinedApp()` from the missing
src/interfaces.ts, a combined record with every field still absent. -/
def newCombinedApp : CombinedApp :=
  ⟨none, none, none, none⟩

/-- The JavaScript Map from titles to CombinedApp objects, modelled as an
insertion-ordered association list (JS Map preserves insertion order and
compares keys by SameValueZero, here exact equality of optional strings). -/
abbrev AppMap := List (Option String × CombinedApp)

/-- Map.has. -/
def mapHas (m : AppMap) (k : Option String) : Bool :=
  m.any (fun p => p.1 == k)

/-- Map.get, returning undefined (none) when the key is absent. -/
def mapGet (m : AppMap) (k : Option String) : Option CombinedApp :=
  (m.find? (fun p => p.1 == k)).map (fun p => p.2)

/-- The idiom `if (!m.has(k)) m.set(k, new CombinedApp())`: appends a fresh
empty CombinedApp at the end iff the key is absent. -/
def mapSetNew (m : AppMap) (k : Option String) : AppMap :=
  if mapHas m k then m else m ++ [(k, newCombinedApp)]

/-- In-place mutation of the CombinedApp stored under a key (the script
mutates the object returned by Map.get). -/
def mapUpdate (m : AppMap) (k : Option String) (f : CombinedApp → CombinedApp) : AppMap :=
  m.map (fun p => if p.1 == k then (p.1, f p.2) else p)

/-- One iteration of the Google deduplication loop, src/scraper.ts
lines 189-194: find-or-create the CombinedApp for the record's title, then
addGoogleAppData. -/
def dedupGoogleStep (m : AppMap) (app : SrcApp) : AppMap :=
  mapUpdate (mapSetNew m app.title) app.title (fun c => c.addGoogleAppData app)

/-- One iteration of the Apple deduplication loop, src/scraper.ts
lines 196-201. -/
def dedupAppleStep (m : AppMap) (app : SrcApp) : AppMap :=
  mapUpdate (mapSetNew m app.title) app.title (fun c => c.addAppleAppData app)

/-- The per-source Deduplicator for the Google array (the Map
filteredGoogleApps of src/scraper.ts line 186 after the loop of
lines 189-194). -/
def filteredGoogleApps (playStoreArray : List SrcApp) : AppMap :=
  playStoreArray.foldl dedupGoogleStep []

/-- The per-source Deduplicator for the Apple array (src/scraper.ts
lines 187, 196-201). -/
def filteredAppleApps (appStoreArray : List SrcApp) : AppMap :=
  appStoreArray.foldl dedupAppleStep []

/-- The body of the cross-source merge applied to the CombinedApp found or
created for a record's title: discriminate the variant, then populate from
the matching source (src/scraper.ts lines 216-217). -/
def applyData (c : CombinedApp) (app : SrcApp) : CombinedApp :=
  if isGoogleApp app then c.addGoogleAppData app else c.addAppleAppData app

/-- One iteration of the cross-source merge loop, src/scraper.ts
lines 210-218. -/
def mergeStep (m : AppMap) (app : SrcApp) : AppMap :=
  mapUpdate (mapSetNew m app.title) app.title (fun c => applyData c app)

/-- The Map `apps` of src/scraper.ts line 208 after folding the concatenation
of the two raw arrays through the merge loop (line 210). -/
def apps (playStoreArray appStoreArray : List SrcApp) : AppMap :=
  (playStoreArray ++ appStoreArray).foldl mergeStep []

/-- The flat exported shape produced on line 220: the CombinedApp fields
spread into a fresh object together with the bothAppStores flag. -/
structure OutApp where
  titleGoogle : Option String
  titleApple : Option String
  googleData : Option SrcApp
  appleData : Option SrcApp
  bothAppStores : Bool
deriving Repr, DecidableEq

/-- The per-record finalization of line 220:
`(app => ({...app, bothAppStores: Boolean(app.titleApple && app.titleGoogle)}))`. -/
def finalize (c : CombinedApp) : OutApp :=
  { titleGoogle := c.titleGoogle
    titleApple := c.titleApple
    googleData := c.googleData
    appleData := c.appleData
    bothAppStores := truthy c.titleApple && truthy c.titleGoogle }

/-- appsAsArray of src/scraper.ts line 220: the merge map's values in
insertion order, each finalized with its bothAppStores flag. -/
def appsAsArray (playStoreArray appStoreArray : List SrcApp) : List OutApp :=
  (apps playStoreArray appStoreArray).map (fun p => finalize p.2)

/-- Result of one scrape call for one search term: the retrieved records, or
a rejected promise carrying an error message. -/
abbrev ScrapeResult := Except String (List SrcApp)

/-- Promise.all over the per-term scrape promises (src/scraper.ts
lines 170-172 and 176-178): resolves to the list of all results when every
promise resolves, rejects with the first rejection otherwise. -/
def promiseAll : List ScrapeResult → Except String (List (List SrcApp))
  | [] => .ok []
  | .error e :: _ => .error e
  | .ok v :: rest => (promiseAll rest).map (fun vs => v :: vs)

/-- The `.catch(error => console.log(error))` on the Promise.all chain: a
rejection is logged and replaced by undefined (none). -/
def catchLog (r : Except String (List (List SrcApp))) : Option (List (List SrcApp)) :=
  r.toOption

/-- The full `(await Promise.all(...).catch(...)).flat()` expression of
src/scraper.ts lines 169-179: when any scrape rejected, the catch yields
undefined and calling .flat() on it throws a TypeError, modelled as an
error result; otherwise the per-term arrays are flattened. -/
def storeArrayOf (results : List ScrapeResult) : Except String (List SrcApp) :=
  match catchLog (promiseAll results) with
  | some arrays => .ok arrays.flatten
  | none => .error "TypeError: cannot call flat of undefined"

/-- The tail of the run after retrieval, from the two per-term result lists
to the exported rows: the run aborts when either store array computation
throws, otherwise the merge output is exported. -/
def runExportedApps (googleResults appleResults : List ScrapeResult) :
    Except String (List OutApp) :=
  match storeArrayOf googleResults with
  | .error e => .error e
  | .ok g =>
    match storeArrayOf appleResults with
    | .error e => .error e
    | .ok a => .ok (appsAsArray g a)

/-- Iterated insertion of a key into a key list, ignoring keys already
present: how one find-or-create step evolves a JS Map's key sequence. -/
def insKey (ks : List (Option String)) (t : Option String) : List (Option String) :=
  if t ∈ ks then ks else ks ++ [t]

/-- Titles in order of first occurrence: the insertion order of keys into a
JS Map fed by the merge loop. -/
def firstOccur (ts : List (Option String)) : List (Option String) :=
  ts.foldl insKey []

/-- The last record with a given title, in processing order. -/
def lastWith (l : List SrcApp) (t : Option String) : Option SrcApp :=
  (l.filter (fun r => r.title == t)).getLast?

/-- The deduplicated representatives of one source array: one record per
distinct title, in order of first occurrence of the title, each the last
record with that title. -/
def reprsOf (l : List SrcApp) : List SrcApp :=
  (firstOccur (l.map (fun r => r.title))).filterMap (lastWith l)

/-- The keys a fold over insKey appends after a given set of already seen
keys: first occurrences of unseen titles, in order. -/
def dedupFirst (seen : List (Option String)) : List (Option String) → List (Option String)
  | [] => []
  | t :: ts => if t ∈ seen then dedupFirst seen ts else t :: dedupFirst (seen ++ [t]) ts

/-- All three loops of the script share one step shape: find-or-create the
entry for the record's title, then mutate it with a population function. -/
def stepWith (f : CombinedApp → SrcApp → CombinedApp) (m : AppMap) (app : SrcApp) : AppMap :=
  mapUpdate (mapSetNew m app.title) app.title (fun c => f c app)

theorem dedupGoogleStep_eq_stepWith : dedupGoogleStep = stepWith CombinedApp.addGoogleAppData :=
  rfl

theorem dedupAppleStep_eq_stepWith : dedupAppleStep = stepWith CombinedApp.addAppleAppData :=
  rfl

theorem mergeStep_eq_stepWith : mergeStep = stepWith applyData :=
  rfl

theorem mapGet_nil (t : Option String) : mapGet [] t = none :=
  rfl

theorem mapHas_eq_isSome_mapGet (m : AppMap) (k : Option String) :
    mapHas m k = (mapGet m k).isSome := by
  induction m with
  | nil => rfl
  | cons p m ih =>
    by_cases h : p.1 = k
    · simp [mapHas, mapGet, List.find?_cons, h]
    · have hb : (p.1 == k) = false := by simpa using h
      simp only [mapHas, mapGet, List.any_cons, List.find?_cons, hb, Bool.false_or, cond_false]
      exact ih

theorem mapHas_iff_mem_keys (m : AppMap) (k : Option String) :
    mapHas m k = true ↔ k ∈ m.map Prod.fst := by
  constructor
  · intro h
    obtain ⟨p, hp, hpk⟩ := List.any_eq_true.mp h
    exact List.mem_map.mpr ⟨p, hp, beq_iff_eq.mp hpk⟩
  · intro h
    obtain ⟨p, hp, hpk⟩ := List.mem_map.mp h
    exact List.any_eq_true.mpr ⟨p, hp, beq_iff_eq.mpr hpk⟩

theorem mapGet_eq_none_of_not_mem_keys (m : AppMap) (k : Option String)
    (h : k ∉ m.map Prod.fst) : mapGet m k = none := by
  have hh : mapHas m k = false := by
    cases hb : mapHas m k
    · rfl
    · exact absurd ((mapHas_iff_mem_keys m k).mp hb) h
  have := mapHas_eq_isSome_mapGet m k
  rw [hh] at this
  exact Option.not_isSome_iff_eq_none.mp (by simp [← this])

theorem keys_mapUpdate (m : AppMap) (k : Option String) (f : CombinedApp → CombinedApp) :
    (mapUpdate m k f).map Prod.fst = m.map Prod.fst := by
  simp only [mapUpdate, List.map_map]
  apply List.map_congr_left
  intro p _
  by_cases h : p.1 = k <;> simp [h]

theorem update_keyfun (k t : Option String) (f : CombinedApp → CombinedApp) :
    ((fun p : Option String × CombinedApp => p.1 == t) ∘
      (fun p : Option String × CombinedApp => if p.1 == k then (p.1, f p.2) else p)) =
      fun p : Option String × CombinedApp => p.1 == t := by
  funext p
  by_cases h : p.1 = k <;> simp [h]

theorem mapGet_mapUpdate_self (m : AppMap) (k : Option String) (f : CombinedApp → CombinedApp) :
    mapGet (mapUpdate m k f) k = (mapGet m k).map f := by
  simp only [mapGet, mapUpdate, List.find?_map, update_keyfun, Option.map_map]
  cases hf : m.find? (fun q => q.1 == k) with
  | none => rfl
  | some q =>
    have hq : q.1 = k := by simpa using List.find?_some hf
    simp [hq]

theorem mapGet_mapUpdate_ne (m : AppMap) (k t : Option String) (f : CombinedApp → CombinedApp)
    (h : t ≠ k) : mapGet (mapUpdate m k f) t = mapGet m t := by
  simp only [mapGet, mapUpdate, List.find?_map, update_keyfun, Option.map_map]
  cases hf : m.find? (fun q => q.1 == t) with
  | none => rfl
  | some q =>
    have hqt : q.1 = t := by simpa using List.find?_some hf
    have hqk : ¬q.1 = k := by rw [hqt]; exact h
    simp [hqk]

theorem find?_eq_none_of_mapGet_none (m : AppMap) (k : Option String)
    (h : mapGet m k = none) : m.find? (fun p => p.1 == k) = none := by
  cases hf : m.find? (fun p => p.1 == k) with
  | none => rfl
  | some p =>
    have : mapGet m k = some p.2 := by simp [mapGet, hf]
    rw [h] at this
    exact Option.noConfusion this

theorem mapGet_mapSetNew_self (m : AppMap) (k : Option String) :
    mapGet (mapSetNew m k) k = some ((mapGet m k).getD newCombinedApp) := by
  by_cases h : mapHas m k = true
  · have hs : (mapGet m k).isSome := by rw [← mapHas_eq_isSome_mapGet]; exact h
    obtain ⟨c, hc⟩ := Option.isSome_iff_exists.mp hs
    simp [mapSetNew, h, hc]
  · have hh : mapHas m k = false := by simpa using h
    have hnone : mapGet m k = none := by
      have hiso := mapHas_eq_isSome_mapGet m k
      rw [hh] at hiso
      exact Option.not_isSome_iff_eq_none.mp (by simp [← hiso])
    have hfind := find?_eq_none_of_mapGet_none m k hnone
    simp [mapSetNew, hh, mapGet, List.find?_append, hfind, hnone]

theorem mapGet_mapSetNew_ne (m : AppMap) (k t : Option String) (h : t ≠ k) :
    mapGet (mapSetNew m k) t = mapGet m t := by
  by_cases hh : mapHas m k
  · simp [mapSetNew, hh]
  · have hb : (k == t) = false := by
      simp only [beq_eq_false_iff_ne, ne_eq]
      exact fun hkt => h hkt.symm
    simp [mapSetNew, hh, mapGet, List.find?_append, List.find?_cons, hb]

theorem keys_mapSetNew (m : AppMap) (k : Option String) :
    (mapSetNew m k).map Prod.fst =
      if k ∈ m.map Prod.fst then m.map Prod.fst else m.map Prod.fst ++ [k] := by
  by_cases h : k ∈ m.map Prod.fst
  · have : mapHas m k = true := (mapHas_iff_mem_keys m k).mpr h
    simp [mapSetNew, this, h]
  · have : mapHas m k = false := by
      cases hb : mapHas m k
      · rfl
      · exact absurd ((mapHas_iff_mem_keys m k).mp hb) h
    simp [mapSetNew, this, h]

theorem mapGet_stepWith_self (f : CombinedApp → SrcApp → CombinedApp) (m : AppMap)
    (app : SrcApp) :
    mapGet (stepWith f m app) app.title =
      some (f ((mapGet m app.title).getD newCombinedApp) app) := by
  simp [stepWith, mapGet_mapUpdate_self, mapGet_mapSetNew_self]

theorem mapGet_stepWith_ne (f : CombinedApp → SrcApp → CombinedApp) (m : AppMap)
    (app : SrcApp) (t : Option String) (h : t ≠ app.title) :
    mapGet (stepWith f m app) t = mapGet m t := by
  simp [stepWith, mapGet_mapUpdate_ne _ _ _ _ h, mapGet_mapSetNew_ne _ _ _ h]

theorem keys_stepWith (f : CombinedApp → SrcApp → CombinedApp) (m : AppMap) (app : SrcApp) :
    (stepWith f m app).map Prod.fst = insKey (m.map Prod.fst) app.title := by
  simp [stepWith, keys_mapUpdate, keys_mapSetNew, insKey]

theorem mapGet_foldl_stepWith (f : CombinedApp → SrcApp → CombinedApp) (l : List SrcApp)
    (m : AppMap) (t : Option String) :
    mapGet (l.foldl (stepWith f) m) t =
      if (l.filter (fun r => r.title == t)).isEmpty then mapGet m t
      else some ((l.filter (fun r => r.title == t)).foldl f
        ((mapGet m t).getD newCombinedApp)) := by
  induction l generalizing m with
  | nil => simp
  | cons a l ih =>
    rw [List.foldl_cons, ih]
    by_cases h : a.title = t
    · have hget : mapGet (stepWith f m a) t =
          some (f ((mapGet m t).getD newCombinedApp) a) := by
        subst h
        exact mapGet_stepWith_self f m a
      by_cases hrel : (l.filter (fun r => r.title == t)).isEmpty = true
      · have hrel' : l.filter (fun r => r.title == t) = [] := by
          simpa [List.isEmpty_iff] using hrel

        simp [List.filter_cons, h, hrel', hget]
      · have hrelf : (l.filter (fun r => r.title == t)).isEmpty = false := by
          simpa using hrel
        simp [List.filter_cons, h, hrelf, hget]
    · have hne : t ≠ a.title := fun ht => h ht.symm
      rw [mapGet_stepWith_ne f m a t hne]
      simp [List.filter_cons, h]

theorem keys_foldl_stepWith (f : CombinedApp → SrcApp → CombinedApp) (l : List SrcApp)
    (m : AppMap) :
    (l.foldl (stepWith f) m).map Prod.fst =
      (l.map (fun r => r.title)).foldl insKey (m.map Prod.fst) := by
  induction l generalizing m with
  | nil => rfl
  | cons a l ih =>
    rw [List.foldl_cons, ih, keys_stepWith, List.map_cons, List.foldl_cons]

theorem foldl_insKey_eq_append_dedupFirst (ts acc : List (Option String)) :
    ts.foldl insKey acc = acc ++ dedupFirst acc ts := by
  induction ts generalizing acc with
  | nil => simp [dedupFirst]
  | cons t ts ih =>
    by_cases h : t ∈ acc
    · simp [List.foldl_cons, insKey, h, dedupFirst, ih]
    · rw [List.foldl_cons]
      show (ts.foldl insKey (insKey acc t)) = acc ++ dedupFirst acc (t :: ts)
      rw [insKey, if_neg h, ih, dedupFirst, if_neg h]
      simp

theorem firstOccur_eq_dedupFirst (ts : List (Option String)) :
    firstOccur ts = dedupFirst [] ts := by
  simpa using foldl_insKey_eq_append_dedupFirst ts []

theorem mem_dedupFirst (ts seen : List (Option String)) (t : Option String) :
    t ∈ dedupFirst seen ts ↔ t ∈ ts ∧ t ∉ seen := by
  induction ts generalizing seen with
  | nil => simp [dedupFirst]
  | cons u ts ih =>
    by_cases h : u ∈ seen
    · rw [dedupFirst, if_pos h, ih]
      constructor
      · rintro ⟨h1, h2⟩
        exact ⟨List.mem_cons_of_mem u h1, h2⟩
      · rintro ⟨h1, h2⟩
        rcases List.mem_cons.mp h1 with h1 | h1
        · exact absurd (h1 ▸ h) h2
        · exact ⟨h1, h2⟩
    · rw [dedupFirst, if_neg h]
      by_cases htu : t = u
      · subst htu
        simp [h]
      · rw [List.mem_cons]
        rw [ih]
        simp [htu, List.mem_append, List.mem_cons]

theorem nodup_dedupFirst (ts seen : List (Option String)) : (dedupFirst seen ts).Nodup := by
  induction ts generalizing seen with
  | nil => simp [dedupFirst]
  | cons u ts ih =>
    by_cases h : u ∈ seen
    · rw [dedupFirst, if_pos h]
      exact ih seen
    · rw [dedupFirst, if_neg h]
      refine List.nodup_cons.mpr ⟨?_, ih (seen ++ [u])⟩
      rw [mem_dedupFirst]
      rintro ⟨-, h2⟩
      exact h2 (List.mem_append.mpr (Or.inr (List.mem_singleton.mpr rfl)))

theorem dedupFirst_dedupFirst (ts A B : List (Option String))
    (hBA : ∀ x, x ∈ B → x ∈ A) :
    dedupFirst A (dedupFirst B ts) = dedupFirst A ts := by
  induction ts generalizing A B with
  | nil => simp [dedupFirst]
  | cons u ts ih =>
    by_cases hB : u ∈ B
    · rw [dedupFirst, if_pos hB, ih A B hBA, dedupFirst, if_pos (hBA u hB)]
    · by_cases hA : u ∈ A
      · have hBA' : ∀ x, x ∈ B ++ [u] → x ∈ A := by
          intro x hx
          rcases List.mem_append.mp hx with hx | hx
          · exact hBA x hx
          · rw [List.mem_singleton.mp hx]
            exact hA
        rw [dedupFirst, if_neg hB, dedupFirst, if_pos hA, ih A (B ++ [u]) hBA',
          dedupFirst, if_pos hA]
      · have hBA' : ∀ x, x ∈ B ++ [u] → x ∈ A ++ [u] := by
          intro x hx
          rcases List.mem_append.mp hx with hx | hx
          · exact List.mem_append.mpr (Or.inl (hBA x hx))
          · exact List.mem_append.mpr (Or.inr hx)
        rw [dedupFirst, if_neg hB, dedupFirst, if_neg hA,
          ih (A ++ [u]) (B ++ [u]) hBA', dedupFirst, if_neg hA]

theorem nodup_keys_foldl_stepWith (f : CombinedApp → SrcApp → CombinedApp) (l : List SrcApp) :
    ((l.foldl (stepWith f) []).map Prod.fst).Nodup := by
  rw [keys_foldl_stepWith]
  show ((l.map (fun r => r.title)).foldl insKey []).Nodup
  rw [foldl_insKey_eq_append_dedupFirst]
  simpa using nodup_dedupFirst (l.map (fun r => r.title)) []

theorem addGoogle_addGoogle (c : CombinedApp) (a b : SrcApp) :
    (c.addGoogleAppData a).addGoogleAppData b = c.addGoogleAppData b :=
  rfl

theorem addApple_addApple (c : CombinedApp) (a b : SrcApp) :
    (c.addAppleAppData a).addAppleAppData b = c.addAppleAppData b :=
  rfl

theorem foldl_addGoogle_getLast (rel : List SrcApp) (c : CombinedApp) (r : SrcApp)
    (h : rel.getLast? = some r) :
    rel.foldl CombinedApp.addGoogleAppData c = c.addGoogleAppData r := by
  induction rel generalizing c with
  | nil => exact absurd h (by simp)
  | cons x xs ih =>
    cases xs with
    | nil =>
      have hx : x = r := by simpa using h
      subst hx
      rfl
    | cons y ys =>
      rw [List.getLast?_cons_cons] at h
      rw [List.foldl_cons, ih (c.addGoogleAppData x) h, addGoogle_addGoogle]

theorem foldl_addApple_getLast (rel : List SrcApp) (c : CombinedApp) (r : SrcApp)
    (h : rel.getLast? = some r) :
    rel.foldl CombinedApp.addAppleAppData c = c.addAppleAppData r := by
  induction rel generalizing c with
  | nil => exact absurd h (by simp)
  | cons x xs ih =>
    cases xs with
    | nil =>
      have hx : x = r := by simpa using h
      subst hx
      rfl
    | cons y ys =>
      rw [List.getLast?_cons_cons] at h
      rw [List.foldl_cons, ih (c.addAppleAppData x) h, addApple_addApple]

theorem foldl_applyData_of_all_google (rel : List SrcApp) (c : CombinedApp)
    (h : ∀ r ∈ rel, isGoogleApp r = true) :
    rel.foldl applyData c = rel.foldl CombinedApp.addGoogleAppData c := by
  induction rel generalizing c with
  | nil => rfl
  | cons x xs ih =>
    have hx : isGoogleApp x = true := h x (List.mem_cons_self x xs)
    rw [List.foldl_cons, List.foldl_cons]
    have hstep : applyData c x = c.addGoogleAppData x := by
      simp [applyData, hx]
    rw [hstep]
    exact ih _ (fun r hr => h r (List.mem_cons_of_mem x hr))

theorem foldl_applyData_of_all_apple (rel : List SrcApp) (c : CombinedApp)
    (h : ∀ r ∈ rel, isGoogleApp r = false) :
    rel.foldl applyData c = rel.foldl CombinedApp.addAppleAppData c := by
  induction rel generalizing c with
  | nil => rfl
  | cons x xs ih =>
    have hx : isGoogleApp x = false := h x (List.mem_cons_self x xs)
    rw [List.foldl_cons, List.foldl_cons]
    have hstep : applyData c x = c.addAppleAppData x := by
      simp [applyData, hx]
    rw [hstep]
    exact ih _ (fun r hr => h r (List.mem_cons_of_mem x hr))

theorem titleGoogle_foldl_applyData (rel : List SrcApp) (c : CombinedApp) (t : Option String)
    (h : ∀ r ∈ rel, r.title = t) :
    (rel.foldl applyData c).titleGoogle =
      if rel.any isGoogleApp then t else c.titleGoogle := by
  induction rel generalizing c with
  | nil => simp
  | cons x xs ih =>
    have hx : x.title = t := h x (List.mem_cons_self x xs)
    have hxs : ∀ r ∈ xs, r.title = t := fun r hr => h r (List.mem_cons_of_mem x hr)
    rw [List.foldl_cons, ih _ hxs]
    cases hg : isGoogleApp x with
    | true =>
      have hstep : (applyData c x).titleGoogle = t := by
        simp [applyData, hg, CombinedApp.addGoogleAppData, hx]
      rw [hstep]
      simp [List.any_cons, hg, ite_self]
    | false =>
      have hstep : (applyData c x).titleGoogle = c.titleGoogle := by
        simp [applyData, hg, CombinedApp.addAppleAppData]
      rw [hstep]
      simp [List.any_cons, hg]

theorem titleApple_foldl_applyData (rel : List SrcApp) (c : CombinedApp) (t : Option String)
    (h : ∀ r ∈ rel, r.title = t) :
    (rel.foldl applyData c).titleApple =
      if rel.any (fun r => !isGoogleApp r) then t else c.titleApple := by
  induction rel generalizing c with
  | nil => simp
  | cons x xs ih =>
    have hx : x.title = t := h x (List.mem_cons_self x xs)
    have hxs : ∀ r ∈ xs, r.title = t := fun r hr => h r (List.mem_cons_of_mem x hr)
    rw [List.foldl_cons, ih _ hxs]
    cases hg : isGoogleApp x with
    | true =>
      have hstep : (applyData c x).titleApple = c.titleApple := by
        simp [applyData, hg, CombinedApp.addGoogleAppData]
      rw [hstep]
      simp [List.any_cons, hg]
    | false =>
      have hstep : (applyData c x).titleApple = t := by
        simp [applyData, hg, CombinedApp.addAppleAppData, hx]
      rw [hstep]
      simp [List.any_cons, hg, ite_self]

theorem title_eq_of_mem_filter (l : List SrcApp) (t : Option String) (r : SrcApp)
    (h : r ∈ l.filter (fun x => x.title == t)) : r.title = t := by
  have := (List.mem_filter.mp h).2
  simpa using this

theorem apps_eq_foldl (g a : List SrcApp) :
    apps g a = (g ++ a).foldl (stepWith applyData) [] := by
  unfold apps
  rw [mergeStep_eq_stepWith]

theorem filteredGoogleApps_eq_foldl (l : List SrcApp) :
    filteredGoogleApps l = l.foldl (stepWith CombinedApp.addGoogleAppData) [] := by
  unfold filteredGoogleApps
  rw [dedupGoogleStep_eq_stepWith]

theorem filteredAppleApps_eq_foldl (l : List SrcApp) :
    filteredAppleApps l = l.foldl (stepWith CombinedApp.addAppleAppData) [] := by
  unfold filteredAppleApps
  rw [dedupAppleStep_eq_stepWith]

theorem mapGet_apps (g a : List SrcApp) (t : Option String) :
    mapGet (apps g a) t =
      if ((g ++ a).filter (fun r => r.title == t)).isEmpty then none
      else some (((g ++ a).filter (fun r => r.title == t)).foldl applyData
        newCombinedApp) := by
  rw [apps_eq_foldl, mapGet_foldl_stepWith]
  rfl

theorem keys_apps (g a : List SrcApp) :
    (apps g a).map Prod.fst = firstOccur ((g ++ a).map (fun r => r.title)) := by
  rw [apps_eq_foldl, keys_foldl_stepWith]
  rfl

theorem nodup_keys_apps (g a : List SrcApp) : ((apps g a).map Prod.fst).Nodup := by
  rw [apps_eq_foldl]
  exact nodup_keys_foldl_stepWith applyData (g ++ a)

theorem mapGet_filteredGoogleApps (l : List SrcApp) (t : Option String) :
    mapGet (filteredGoogleApps l) t =
      if (l.filter (fun r => r.title == t)).isEmpty then none
      else some ((l.filter (fun r => r.title == t)).foldl
        CombinedApp.addGoogleAppData newCombinedApp) := by
  rw [filteredGoogleApps_eq_foldl, mapGet_foldl_stepWith]
  rfl

theorem mapGet_filteredAppleApps (l : List SrcApp) (t : Option String) :
    mapGet (filteredAppleApps l) t =
      if (l.filter (fun r => r.title == t)).isEmpty then none
      else some ((l.filter (fun r => r.title == t)).foldl
        CombinedApp.addAppleAppData newCombinedApp) := by
  rw [filteredAppleApps_eq_foldl, mapGet_foldl_stepWith]
  rfl

theorem keys_filteredGoogleApps (l : List SrcApp) :
    (filteredGoogleApps l).map Prod.fst = firstOccur (l.map (fun r => r.title)) := by
  rw [filteredGoogleApps_eq_foldl, keys_foldl_stepWith]
  rfl

theorem keys_filteredAppleApps (l : List SrcApp) :
    (filteredAppleApps l).map Prod.fst = firstOccur (l.map (fun r => r.title)) := by
  rw [filteredAppleApps_eq_foldl, keys_foldl_stepWith]
  rfl

theorem countP_fst_eq_countP_keys (m : AppMap) (t : Option String) :
    m.countP (fun p => p.1 == t) = (m.map Prod.fst).countP (fun k => k == t) := by
  rw [List.countP_map]
  rfl

theorem countP_beq_of_nodup (ks : List (Option String)) (t : Option String)
    (h : ks.Nodup) : ks.countP (fun k => k == t) = if t ∈ ks then 1 else 0 := by
  induction ks with
  | nil => simp
  | cons k ks ih =>
    rw [List.nodup_cons] at h
    rw [List.countP_cons]
    by_cases hkt : k = t
    · subst hkt
      rw [ih h.2, if_neg h.1, if_pos (List.mem_cons_self k ks)]
      simp
    · have hbeq : (k == t) = false := by simpa using hkt
      rw [ih h.2, hbeq]
      by_cases hm : t ∈ ks
      · rw [if_pos hm, if_pos (List.mem_cons_of_mem k hm)]
        simp
      · have hnm : t ∉ k :: ks := by
          intro hc
          rcases List.mem_cons.mp hc with hc | hc
          · exact hkt hc.symm
          · exact hm hc
        rw [if_neg hm, if_neg hnm]
        simp

theorem countP_firstOccur (ts : List (Option String)) (t : Option String) :
    (firstOccur ts).countP (fun k => k == t) = if t ∈ ts then 1 else 0 := by
  rw [firstOccur_eq_dedupFirst,
    countP_beq_of_nodup (dedupFirst [] ts) t (nodup_dedupFirst ts [])]
  by_cases h : t ∈ ts
  · rw [if_pos ((mem_dedupFirst ts [] t).mpr ⟨h, by simp⟩), if_pos h]
  · rw [if_neg (fun hm => h ((mem_dedupFirst ts [] t).mp hm).1), if_neg h]

theorem mem_map_title_iff_any (l : List SrcApp) (t : Option String) :
    t ∈ l.map (fun r => r.title) ↔ l.any (fun r => r.title == t) = true := by
  rw [List.mem_map, List.any_eq_true]
  constructor
  · rintro ⟨r, hr, hrt⟩
    exact ⟨r, hr, beq_iff_eq.mpr hrt⟩
  · rintro ⟨r, hr, hrt⟩
    exact ⟨r, hr, beq_iff_eq.mp hrt⟩

theorem countP_firstOccur_titles (l : List SrcApp) (t : Option String) :
    (firstOccur (l.map (fun r => r.title))).countP (fun k => k == t) =
      if l.any (fun r => r.title == t) then 1 else 0 := by
  rw [countP_firstOccur]
  by_cases h : l.any (fun r => r.title == t) = true
  · rw [if_pos ((mem_map_title_iff_any l t).mpr h), if_pos h]
  · rw [if_neg (fun hm => h ((mem_map_title_iff_any l t).mp hm)), if_neg h]

theorem countP_keys_apps (g a : List SrcApp) (t : Option String) :
    (apps g a).countP (fun p => p.1 == t) =
      if (g ++ a).any (fun r => r.title == t) then 1 else 0 := by
  rw [countP_fst_eq_countP_keys, keys_apps, countP_firstOccur_titles]

theorem countP_keys_filteredGoogleApps (l : List SrcApp) (t : Option String) :
    (filteredGoogleApps l).countP (fun p => p.1 == t) =
      if l.any (fun r => r.title == t) then 1 else 0 := by
  rw [countP_fst_eq_countP_keys, keys_filteredGoogleApps, countP_firstOccur_titles]

theorem countP_keys_filteredAppleApps (l : List SrcApp) (t : Option String) :
    (filteredAppleApps l).countP (fun p => p.1 == t) =
      if l.any (fun r => r.title == t) then 1 else 0 := by
  rw [countP_fst_eq_countP_keys, keys_filteredAppleApps, countP_firstOccur_titles]

/-- The Google records of the scenario of the spec's testable-properties
section: titles Foo, Bar, Foo. -/
def scenarioGoogle : List SrcApp :=
  [{ title := some "Foo", searchTerm := some "health", summary := some "g1" },
   { title := some "Bar", searchTerm := some "health", summary := some "g2" },
   { title := some "Foo", searchTerm := some "health", summary := some "g3" }]

/-- The Apple records of the same scenario: titles Bar, Baz. -/
def scenarioApple : List SrcApp :=
  [{ title := some "Bar", searchTerm := some "health", description := some "a1" },
   { title := some "Baz", searchTerm := some "health", description := some "a2" }]

/-- C1: on the scenario where the Google source yields titles Foo, Bar, Foo
and the Apple source yields Bar, Baz, the merge produces exactly the three
combined records Foo, Bar, Baz with bothAppStores false, true, false, and
the Deduplicator on the Google array alone maps 3 input records to 2
distinct output records, i.e. removes 1 duplicate. -/
theorem C1_scenario_merge_and_dedup :
    (apps scenarioGoogle scenarioApple).map Prod.fst =
        [some "Foo", some "Bar", some "Baz"] ∧
    (appsAsArray scenarioGoogle scenarioApple).map (fun o => o.bothAppStores) =
        [false, true, false] ∧
    (appsAsArray scenarioGoogle scenarioApple).length = 3 ∧
    scenarioGoogle.length = 3 ∧
    (filteredGoogleApps scenarioGoogle).length = 2 ∧
    scenarioGoogle.length - (filteredGoogleApps scenarioGoogle).length = 1 := by
  decide

/-- C4: record identity for merging is exact equality of the optional title
value: two records (here one per source, which also covers two records of one
source, since the merge folds the one concatenated sequence) stay two
distinct combined records precisely when their titles differ as strings, and
collapse into one combined record when the titles are equal, the empty string
included. Case or whitespace variants are unequal strings and hence stay
distinct. -/
theorem C4_exact_title_identity (r1 r2 : SrcApp) :
    (apps [r1] [r2]).map Prod.fst =
      if r1.title = r2.title then [r1.title] else [r1.title, r2.title] := by
  rw [keys_apps]
  by_cases h : r1.title = r2.title
  · simp [firstOccur, insKey, h]
  · simp [firstOccur, insKey, h, Ne.symm h]

/-- C9: throughout the merge pass and in its final output, the accumulated
mapping never holds two combined records for one title: after any number of
fold steps of the merge loop, and for the final map, the key list has no
duplicates. -/
theorem C9_at_most_one_record_per_title (g a : List SrcApp) (n : Nat) :
    ((((g ++ a).take n).foldl mergeStep []).map Prod.fst).Nodup ∧
    ((apps g a).map Prod.fst).Nodup := by
  constructor
  · rw [mergeStep_eq_stepWith]
    exact nodup_keys_foldl_stepWith applyData ((g ++ a).take n)
  · exact nodup_keys_apps g a

/-- C10: the exported sequence is the merge map's values in insertion order,
and the key insertion order is the order of first encounter of each title in
the concatenated input, all Google records before all Apple records; being a
pure function of the two input arrays, a second run on the same inputs
produces the identical sequence. -/
theorem C10_output_order_first_encounter (g a : List SrcApp) :
    appsAsArray g a = (apps g a).map (fun p => finalize p.2) ∧
    (apps g a).map Prod.fst = firstOccur ((g ++ a).map (fun r => r.title)) := by
  exact ⟨rfl, keys_apps g a⟩

/-- A scrape result list for the Google store in which the first search
term's request rejects and the second succeeds. -/
def failingGoogleResults : List ScrapeResult :=
  [Except.error "network error",
   Except.ok [{ title := some "Bar", searchTerm := some "fitness", summary := some "g" }]]

/-- The single Apple record retrieved successfully in the failing-run
scenario. -/
def appleBarFitness : SrcApp :=
  { title := some "Bar", searchTerm := some "fitness", description := some "a" }

/-- A fully successful scrape result list for the Apple store. -/
def okAppleResults : List ScrapeResult :=
  [Except.ok [appleBarFitness]]

/-- C7: evaluating the pipeline at an input where one (source, term) pair
fails while another pair succeeded: Promise.all rejects as a whole, the
attached catch maps the rejection to undefined, and .flat() on undefined
throws, so the run aborts with a TypeError and exports nothing, even though
the Apple retrieval alone would have succeeded with one record. -/
theorem C7_retrieval_failure_aborts_run :
    runExportedApps failingGoogleResults okAppleResults =
      Except.error "TypeError: cannot call flat of undefined" ∧
    storeArrayOf okAppleResults = Except.ok [appleBarFitness] :=
  ⟨rfl, rfl⟩

theorem truthy_eq_true_iff (x : Option String) :
    truthy x = true ↔ ∃ s, x = some s ∧ s ≠ "" := by
  cases x <;> simp [truthy]

/-- A Google record whose title is the empty string. -/
def gEmptyTitle : SrcApp := { title := some "", summary := some "s" }

/-- An Apple record whose title is the empty string. -/
def aEmptyTitle : SrcApp := { title := some "", description := some "d" }

/-- C2 counterexample: when both stores contribute a record titled by the
empty string, the merged record has both provenance titles present
(non-absent), yet bothAppStores is false, because line 220 tests JS
truthiness and the empty string is falsy. -/
theorem C2_counterexample_empty_title_present_but_false :
    (appsAsArray [gEmptyTitle] [aEmptyTitle]).map
      (fun o => (o.titleGoogle.isSome, o.titleApple.isSome, o.bothAppStores)) =
      [(true, true, false)] := by
  decide

/-- C2 amended: for every record of a completed merge pass, bothAppStores is
true iff titleApple and titleGoogle are both present with a non-empty string
(JS truthiness), computed once from the final fold state. -/
theorem C2_amended_bothAppStores_iff_truthy (g a : List SrcApp) (o : OutApp)
    (h : o ∈ appsAsArray g a) :
    o.bothAppStores = true ↔
      (∃ s, o.titleApple = some s ∧ s ≠ "") ∧
      (∃ s, o.titleGoogle = some s ∧ s ≠ "") := by
  simp only [appsAsArray] at h
  obtain ⟨p, _, rfl⟩ := List.mem_map.mp h
  simp [finalize, Bool.and_eq_true, truthy_eq_true_iff]

/-- A Google record titled Bar. -/
def gBarTitle : SrcApp := { title := some "Bar", summary := some "s" }

/-- An Apple record titled Bar. -/
def aBarTitle : SrcApp := { title := some "Bar", description := some "d" }

/-- The merged output record for the pair of Bar records. -/
def outBar : OutApp :=
  { titleGoogle := some "Bar", titleApple := some "Bar",
    googleData := some gBarTitle, appleData := some aBarTitle,
    bothAppStores := true }

/-- Witness for the amended C2 statement at a concrete merged record. -/
theorem C2_amended_witness :
    outBar ∈ appsAsArray [gBarTitle] [aBarTitle] ∧
    (outBar.bothAppStores = true ↔
      (∃ s, outBar.titleApple = some s ∧ s ≠ "") ∧
      (∃ s, outBar.titleGoogle = some s ∧ s ≠ "")) :=
  ⟨by decide, C2_amended_bothAppStores_iff_truthy [gBarTitle] [aBarTitle] outBar (by decide)⟩

/-- A Google record with no title field at all. -/
def gMissingTitle : SrcApp := { summary := some "m" }

/-- C6 counterexample: a record missing its title is keyed by the undefined
key, which is a different Map key than the empty string, so it does not
merge with an empty-string-titled record: the claimed treat-as-empty-string
behavior would give one combined record here, the code gives two. -/
theorem C6_counterexample_missing_vs_empty :
    (apps [gMissingTitle, gEmptyTitle] []).map Prod.fst = [none, some ""] ∧
    (apps [gMissingTitle, gEmptyTitle] []).length = 2 := by
  decide

/-- C6 amended: both per-source Deduplicators and the Cross-Source Merger
are total and never reject a record; a record missing its title is kept
under the distinct undefined key, so in each of the three maps all
missing-title records collapse into exactly one combined record, and
likewise all empty-string-titled records collapse into exactly one combined
record of their own, the two never merging with each other. -/
theorem C6_amended_missing_title_distinct_key (g a : List SrcApp) :
    (((apps g a).countP (fun p => p.1 == (none : Option String)) =
      if (g ++ a).any (fun r => r.title == (none : Option String)) then 1 else 0) ∧
    ((apps g a).countP (fun p => p.1 == (some "" : Option String)) =
      if (g ++ a).any (fun r => r.title == (some "" : Option String)) then 1 else 0)) ∧
    (((filteredGoogleApps g).countP (fun p => p.1 == (none : Option String)) =
      if g.any (fun r => r.title == (none : Option String)) then 1 else 0) ∧
    ((filteredGoogleApps g).countP (fun p => p.1 == (some "" : Option String)) =
      if g.any (fun r => r.title == (some "" : Option String)) then 1 else 0)) ∧
    (((filteredAppleApps a).countP (fun p => p.1 == (none : Option String)) =
      if a.any (fun r => r.title == (none : Option String)) then 1 else 0) ∧
    ((filteredAppleApps a).countP (fun p => p.1 == (some "" : Option String)) =
      if a.any (fun r => r.title == (some "" : Option String)) then 1 else 0)) :=
  ⟨⟨countP_keys_apps g a none, countP_keys_apps g a (some "")⟩,
    ⟨countP_keys_filteredGoogleApps g none, countP_keys_filteredGoogleApps g (some "")⟩,
    ⟨countP_keys_filteredAppleApps a none, countP_keys_filteredAppleApps a (some "")⟩⟩

/-- C3: for a title that occurs in a single source's input sequence, the
Deduplicator of that source — the Google loop and the Apple loop being the
two per-source instances — keeps exactly one combined record under that
title, and its retained data is exactly that of the last record with that
title in processing order. -/
theorem C3_dedup_last_write_wins (l : List SrcApp) (t : Option String) (r : SrcApp)
    (h : lastWith l t = some r) :
    ((filteredGoogleApps l).countP (fun p => p.1 == t) = 1 ∧
      mapGet (filteredGoogleApps l) t = some (newCombinedApp.addGoogleAppData r)) ∧
    ((filteredAppleApps l).countP (fun p => p.1 == t) = 1 ∧
      mapGet (filteredAppleApps l) t = some (newCombinedApp.addAppleAppData r)) := by
  have hrel : (l.filter (fun x => x.title == t)).getLast? = some r := h
  have hmem : r ∈ l.filter (fun x => x.title == t) := List.mem_of_mem_getLast? hrel
  have hne : l.filter (fun x => x.title == t) ≠ [] := by
    intro hempty
    rw [hempty] at hmem
    exact List.not_mem_nil r hmem
  have hany : l.any (fun x => x.title == t) = true := by
    obtain ⟨hl, ht⟩ := List.mem_filter.mp hmem
    exact List.any_eq_true.mpr ⟨r, hl, ht⟩
  refine ⟨⟨?_, ?_⟩, ?_, ?_⟩
  · rw [countP_keys_filteredGoogleApps, if_pos hany]
  · rw [mapGet_filteredGoogleApps, if_neg (by simpa [List.isEmpty_iff] using hne),
      foldl_addGoogle_getLast _ _ r hrel]
  · rw [countP_keys_filteredAppleApps, if_pos hany]
  · rw [mapGet_filteredAppleApps, if_neg (by simpa [List.isEmpty_iff] using hne),
      foldl_addApple_getLast _ _ r hrel]

/-- The concrete inputs witnessing C3: two records titled X, one titled Y. -/
def dupX1 : SrcApp := { title := some "X", searchTerm := some "one", summary := some "g1" }

/-- Second record titled X, later in processing order. -/
def dupX2 : SrcApp := { title := some "X", searchTerm := some "two", summary := some "g2" }

/-- A record titled Y. -/
def dupY : SrcApp := { title := some "Y", searchTerm := some "one", summary := some "g3" }

/-- Witness for C3 on a concrete duplicate-bearing input. -/
theorem C3_dedup_last_write_wins_witness :
    lastWith [dupX1, dupX2, dupY] (some "X") = some dupX2 ∧
    (((filteredGoogleApps [dupX1, dupX2, dupY]).countP
        (fun p => p.1 == some "X") = 1 ∧
      mapGet (filteredGoogleApps [dupX1, dupX2, dupY]) (some "X") =
        some (newCombinedApp.addGoogleAppData dupX2)) ∧
     ((filteredAppleApps [dupX1, dupX2, dupY]).countP
        (fun p => p.1 == some "X") = 1 ∧
      mapGet (filteredAppleApps [dupX1, dupX2, dupY]) (some "X") =
        some (newCombinedApp.addAppleAppData dupX2))) :=
  ⟨by decide, C3_dedup_last_write_wins [dupX1, dupX2, dupY] (some "X") dupX2 (by decide)⟩

/-- C5: per title, the bothAppStores outcome of merging the Google records
then the Apple records equals that of merging in the opposite order; stated
for the record found under each title, existence included. -/
theorem C5_merge_commutative_in_provenance (g a : List SrcApp) (t : Option String) :
    (mapGet (apps g a) t).map (fun c => truthy c.titleApple && truthy c.titleGoogle) =
    (mapGet (apps a g) t).map (fun c => truthy c.titleApple && truthy c.titleGoogle) := by
  rw [mapGet_apps, mapGet_apps, List.filter_append, List.filter_append]
  have hmemG : ∀ r ∈ g.filter (fun x => x.title == t), r.title = t :=
    fun r hr => title_eq_of_mem_filter g t r hr
  have hmemA : ∀ r ∈ a.filter (fun x => x.title == t), r.title = t :=
    fun r hr => title_eq_of_mem_filter a t r hr
  have key : ∀ (x y : List SrcApp), (∀ r ∈ x, r.title = t) → (∀ r ∈ y, r.title = t) →
      (fun c => truthy c.titleApple && truthy c.titleGoogle)
          ((x ++ y).foldl applyData newCombinedApp) =
      (fun c => truthy c.titleApple && truthy c.titleGoogle)
          ((y ++ x).foldl applyData newCombinedApp) := by
    intro x y hx hy
    have hxy : ∀ r ∈ x ++ y, r.title = t := by
      intro r hr
      rcases List.mem_append.mp hr with h | h
      · exact hx r h
      · exact hy r h
    have hyx : ∀ r ∈ y ++ x, r.title = t := by
      intro r hr
      rcases List.mem_append.mp hr with h | h
      · exact hy r h
      · exact hx r h
    simp only [titleApple_foldl_applyData _ _ t hxy, titleGoogle_foldl_applyData _ _ t hxy,
      titleApple_foldl_applyData _ _ t hyx, titleGoogle_foldl_applyData _ _ t hyx,
      List.any_append, Bool.or_comm]
  have hEmpIff : ((g.filter (fun x => x.title == t) ++ a.filter (fun x => x.title == t)).isEmpty
      = true) ↔
      ((a.filter (fun x => x.title == t) ++ g.filter (fun x => x.title == t)).isEmpty = true) := by
    simp only [List.isEmpty_iff, List.append_eq_nil]
    exact and_comm
  by_cases hE : (g.filter (fun x => x.title == t) ++ a.filter (fun x => x.title == t)).isEmpty
      = true
  · rw [if_pos hE, if_pos (hEmpIff.mp hE)]
  · rw [if_neg hE, if_neg (fun hc => hE (hEmpIff.mpr hc))]
    rw [Option.map_some', Option.map_some']
    exact congrArg some (key _ _ hmemG hmemA)

theorem mem_firstOccur (ts : List (Option String)) (t : Option String) :
    t ∈ firstOccur ts ↔ t ∈ ts := by
  rw [firstOccur_eq_dedupFirst, mem_dedupFirst]
  simp

theorem nodup_firstOccur (ts : List (Option String)) : (firstOccur ts).Nodup := by
  rw [firstOccur_eq_dedupFirst]
  exact nodup_dedupFirst ts []

theorem foldl_insKey_firstOccur (z acc : List (Option String)) :
    (firstOccur z).foldl insKey acc = z.foldl insKey acc := by
  rw [firstOccur_eq_dedupFirst, foldl_insKey_eq_append_dedupFirst,
    foldl_insKey_eq_append_dedupFirst,
    dedupFirst_dedupFirst z acc [] (fun x hx => absurd hx (List.not_mem_nil x))]

theorem firstOccur_append_firstOccur (x y : List (Option String)) :
    firstOccur (firstOccur x ++ firstOccur y) = firstOccur (x ++ y) := by
  show (firstOccur x ++ firstOccur y).foldl insKey [] = (x ++ y).foldl insKey []
  rw [List.foldl_append, List.foldl_append, foldl_insKey_firstOccur x [],
    foldl_insKey_firstOccur y (x.foldl insKey [])]

theorem lastWith_eq_none_iff (l : List SrcApp) (t : Option String) :
    lastWith l t = none ↔ l.filter (fun r => r.title == t) = [] := by
  unfold lastWith
  exact List.getLast?_eq_none_iff

theorem title_lastWith (l : List SrcApp) (t : Option String) (r : SrcApp)
    (h : lastWith l t = some r) : r.title = t :=
  title_eq_of_mem_filter l t r (List.mem_of_mem_getLast? h)

theorem lastWith_isSome_of_mem_titles (l : List SrcApp) (t : Option String)
    (h : t ∈ l.map (fun r => r.title)) : ∃ r, lastWith l t = some r := by
  obtain ⟨x, hx, hxt⟩ := List.mem_map.mp h
  have hne : l.filter (fun r => r.title == t) ≠ [] := by
    intro hc
    have := List.filter_eq_nil_iff.mp hc x hx
    exact this (by simpa using hxt)
  obtain ⟨r, hr⟩ := Option.isSome_iff_exists.mp (List.getLast?_isSome.mpr hne)
  exact ⟨r, hr⟩

theorem map_title_filterMap_lastWith (l : List SrcApp) (us : List (Option String))
    (hus : ∀ u ∈ us, u ∈ l.map (fun r => r.title)) :
    (us.filterMap (lastWith l)).map (fun r => r.title) = us := by
  induction us with
  | nil => rfl
  | cons u us ih =>
    obtain ⟨ru, hru⟩ := lastWith_isSome_of_mem_titles l u (hus u (List.mem_cons_self u us))
    rw [List.filterMap_cons, hru, List.map_cons, title_lastWith l u ru hru,
      ih (fun v hv => hus v (List.mem_cons_of_mem u hv))]

theorem map_title_reprsOf (l : List SrcApp) :
    (reprsOf l).map (fun r => r.title) = firstOccur (l.map (fun r => r.title)) := by
  unfold reprsOf
  exact map_title_filterMap_lastWith l (firstOccur (l.map (fun r => r.title)))
    (fun u hu => (mem_firstOccur _ u).mp hu)

theorem filter_filterMap_lastWith (l : List SrcApp) (t : Option String)
    (us : List (Option String)) (hnd : us.Nodup)
    (hus : ∀ u ∈ us, u ∈ l.map (fun r => r.title)) :
    (us.filterMap (lastWith l)).filter (fun r => r.title == t) =
      if t ∈ us then (lastWith l t).toList else [] := by
  induction us with
  | nil => simp
  | cons u us ih =>
    rw [List.nodup_cons] at hnd
    obtain ⟨ru, hru⟩ := lastWith_isSome_of_mem_titles l u (hus u (List.mem_cons_self u us))
    have hrut : ru.title = u := title_lastWith l u ru hru
    rw [List.filterMap_cons, hru]
    by_cases htu : t = u
    · subst htu
      have hpred : (ru.title == t) = true := by simp [hrut]
      rw [List.filter_cons, if_pos hpred]
      have hrest : (us.filterMap (lastWith l)).filter (fun r => r.title == t) = [] := by
        rw [List.filter_eq_nil_iff]
        intro x hx
        obtain ⟨v, hv, hxv⟩ := List.mem_filterMap.mp hx
        have hxvt : x.title = v := title_lastWith l v x hxv
        simp only [hxvt]
        intro hc
        exact hnd.1 (beq_iff_eq.mp hc ▸ hv)
      rw [hrest, if_pos (List.mem_cons_self t us), hru]
      rfl
    · have hpred : (ru.title == t) = false := by
        simp only [hrut, beq_eq_false_iff_ne, ne_eq]
        exact fun hc => htu hc.symm
      rw [List.filter_cons, if_neg (by simp [hpred])]
      rw [ih hnd.2 (fun v hv => hus v (List.mem_cons_of_mem u hv))]
      by_cases hm : t ∈ us
      · rw [if_pos hm, if_pos (List.mem_cons_of_mem u hm)]
      · rw [if_neg hm, if_neg (by
          intro hc
          rcases List.mem_cons.mp hc with hc | hc
          · exact htu hc
          · exact hm hc)]

theorem filter_reprsOf (l : List SrcApp) (t : Option String) :
    (reprsOf l).filter (fun r => r.title == t) = (lastWith l t).toList := by
  unfold reprsOf
  rw [filter_filterMap_lastWith l t (firstOccur (l.map (fun r => r.title)))
    (nodup_firstOccur _) (fun u hu => (mem_firstOccur _ u).mp hu)]
  by_cases h : t ∈ firstOccur (l.map (fun r => r.title))
  · rw [if_pos h]
  · rw [if_neg h]
    have hnone : lastWith l t = none := by
      rw [lastWith_eq_none_iff, List.filter_eq_nil_iff]
      intro x hx hc
      exact h ((mem_firstOccur _ t).mpr
        (List.mem_map.mpr ⟨x, hx, beq_iff_eq.mp hc⟩))
    rw [hnone]
    rfl

theorem mapGet_cons_self (p : Option String × CombinedApp) (m : AppMap) :
    mapGet (p :: m) p.1 = some p.2 := by
  simp [mapGet, List.find?_cons_of_pos]

theorem mapGet_cons_ne (p : Option String × CombinedApp) (m : AppMap) (t : Option String)
    (h : p.1 ≠ t) : mapGet (p :: m) t = mapGet m t := by
  simp only [mapGet]
  rw [List.find?_cons_of_neg]
  simpa using h

theorem appmap_ext (m1 m2 : AppMap) (hk : m1.map Prod.fst = m2.map Prod.fst)
    (hnd : (m1.map Prod.fst).Nodup) (hv : ∀ t, mapGet m1 t = mapGet m2 t) :
    m1 = m2 := by
  induction m1 generalizing m2 with
  | nil =>
    cases m2 with
    | nil => rfl
    | cons q m2 => exact absurd hk (by simp)
  | cons p m1 ih =>
    cases m2 with
    | nil => exact absurd hk (by simp)
    | cons q m2 =>
      rw [List.map_cons, List.map_cons] at hk
      obtain ⟨hpq, hkk⟩ := List.cons_eq_cons.mp hk
      rw [List.map_cons, List.nodup_cons] at hnd
      have hval : p.2 = q.2 := by
        have h1 := hv q.1
        rw [mapGet_cons_self q m2, ← hpq, mapGet_cons_self p m1] at h1
        exact Option.some.inj h1
      have htail : m1 = m2 := by
        refine ih m2 hkk hnd.2 ?_
        intro t
        by_cases ht : t = p.1
        · subst ht
          rw [mapGet_eq_none_of_not_mem_keys m1 p.1 hnd.1,
            mapGet_eq_none_of_not_mem_keys m2 p.1 (hkk ▸ hnd.1)]
        · have h1 := hv t
          rw [mapGet_cons_ne p m1 t (fun hc => ht hc.symm)] at h1
          rw [mapGet_cons_ne q m2 t (fun hc => ht (hpq ▸ hc).symm)] at h1
          exact h1
      calc p :: m1 = ⟨p.1, p.2⟩ :: m1 := rfl
        _ = ⟨q.1, q.2⟩ :: m2 := by rw [hpq, hval, htail]
        _ = q :: m2 := rfl

theorem mapGet_map_pairs (rs : List SrcApp) (F : SrcApp → CombinedApp) (t : Option String) :
    mapGet (rs.map (fun r => (r.title, F r))) t =
      (rs.find? (fun r => r.title == t)).map F := by
  simp only [mapGet, List.find?_map]
  have hcomp : ((fun p : Option String × CombinedApp => p.1 == t) ∘
      (fun r : SrcApp => (r.title, F r))) = fun r : SrcApp => r.title == t := rfl
  rw [hcomp, Option.map_map]
  rfl

theorem find?_eq_head?_filter (p : SrcApp → Bool) (l : List SrcApp) :
    l.find? p = (l.filter p).head? := by
  induction l with
  | nil => rfl
  | cons x xs ih =>
    cases hx : p x with
    | true => rw [List.find?_cons_of_pos xs hx, List.filter_cons, if_pos hx, List.head?_cons]
    | false =>
      rw [List.find?_cons_of_neg xs (by simp [hx]), List.filter_cons, if_neg (by simp [hx]), ih]

theorem filteredGoogleApps_eq_reprs (l : List SrcApp) :
    filteredGoogleApps l =
      (reprsOf l).map (fun r => (r.title, newCombinedApp.addGoogleAppData r)) := by
  apply appmap_ext
  · rw [keys_filteredGoogleApps, List.map_map]
    exact (map_title_reprsOf l).symm
  · rw [keys_filteredGoogleApps]
    exact nodup_firstOccur _
  · intro t
    rw [mapGet_filteredGoogleApps, mapGet_map_pairs, find?_eq_head?_filter, filter_reprsOf]
    cases hlw : lastWith l t with
    | none =>
      have hrel : l.filter (fun r => r.title == t) = [] := (lastWith_eq_none_iff l t).mp hlw
      rw [hrel]
      rfl
    | some r =>
      have hrel : (l.filter (fun r => r.title == t)).getLast? = some r := hlw
      have hne : l.filter (fun r => r.title == t) ≠ [] := by
        intro hc
        rw [hc] at hrel
        exact Option.noConfusion hrel
      rw [if_neg (by simpa [List.isEmpty_iff] using hne),
        foldl_addGoogle_getLast _ _ r hrel]
      rfl

theorem filteredAppleApps_eq_reprs (l : List SrcApp) :
    filteredAppleApps l =
      (reprsOf l).map (fun r => (r.title, newCombinedApp.addAppleAppData r)) := by
  apply appmap_ext
  · rw [keys_filteredAppleApps, List.map_map]
    exact (map_title_reprsOf l).symm
  · rw [keys_filteredAppleApps]
    exact nodup_firstOccur _
  · intro t
    rw [mapGet_filteredAppleApps, mapGet_map_pairs, find?_eq_head?_filter, filter_reprsOf]
    cases hlw : lastWith l t with
    | none =>
      have hrel : l.filter (fun r => r.title == t) = [] := (lastWith_eq_none_iff l t).mp hlw
      rw [hrel]
      rfl
    | some r =>
      have hrel : (l.filter (fun r => r.title == t)).getLast? = some r := hlw
      have hne : l.filter (fun r => r.title == t) ≠ [] := by
        intro hc
        rw [hc] at hrel
        exact Option.noConfusion hrel
      rw [if_neg (by simpa [List.isEmpty_iff] using hne),
        foldl_addApple_getLast _ _ r hrel]
      rfl

theorem foldl_applyData_eq_of_getLast (relG relA relG2 relA2 : List SrcApp)
    (hg : ∀ r ∈ relG, isGoogleApp r = true) (hg2 : ∀ r ∈ relG2, isGoogleApp r = true)
    (ha : ∀ r ∈ relA, isGoogleApp r = false) (ha2 : ∀ r ∈ relA2, isGoogleApp r = false)
    (hlastG : relG.getLast? = relG2.getLast?) (hlastA : relA.getLast? = relA2.getLast?) :
    (relG ++ relA).foldl applyData newCombinedApp =
      (relG2 ++ relA2).foldl applyData newCombinedApp := by
  rw [List.foldl_append, List.foldl_append,
    foldl_applyData_of_all_apple relA _ ha, foldl_applyData_of_all_apple relA2 _ ha2,
    foldl_applyData_of_all_google relG _ hg, foldl_applyData_of_all_google relG2 _ hg2]
  have hinner : relG.foldl CombinedApp.addGoogleAppData newCombinedApp =
      relG2.foldl CombinedApp.addGoogleAppData newCombinedApp := by
    cases hgl : relG.getLast? with
    | none =>
      have hgl2 : relG2.getLast? = none := by rw [← hlastG]; exact hgl
      rw [List.getLast?_eq_none_iff.mp hgl, List.getLast?_eq_none_iff.mp hgl2]
    | some rG =>
      have hgl2 : relG2.getLast? = some rG := by rw [← hlastG]; exact hgl
      rw [foldl_addGoogle_getLast relG _ rG hgl, foldl_addGoogle_getLast relG2 _ rG hgl2]
  rw [hinner]
  cases hal : relA.getLast? with
  | none =>
    have hal2 : relA2.getLast? = none := by rw [← hlastA]; exact hal
    rw [List.getLast?_eq_none_iff.mp hal, List.getLast?_eq_none_iff.mp hal2]
  | some rA =>
    have hal2 : relA2.getLast? = some rA := by rw [← hlastA]; exact hal
    rw [foldl_addApple_getLast relA _ rA hal, foldl_addApple_getLast relA2 _ rA hal2]

theorem getLast_toList_lastWith (l : List SrcApp) (t : Option String) :
    ((lastWith l t).toList).getLast? = lastWith l t := by
  cases lastWith l t <;> rfl

theorem mem_toList_lastWith (l : List SrcApp) (t : Option String) (r : SrcApp)
    (h : r ∈ (lastWith l t).toList) : r ∈ l := by
  cases hlw : lastWith l t with
  | none =>
    rw [hlw] at h
    exact absurd h (List.not_mem_nil r)
  | some x =>
    rw [hlw] at h
    have hx : r = x := by simpa [Option.toList] using h
    subst hx
    exact (List.mem_filter.mp (List.mem_of_mem_getLast? hlw)).1

theorem mapGet_apps_reprs (g a : List SrcApp)
    (hG : ∀ r ∈ g, isGoogleApp r = true) (hA : ∀ r ∈ a, isGoogleApp r = false)
    (t : Option String) :
    mapGet (apps (reprsOf g) (reprsOf a)) t = mapGet (apps g a) t := by
  rw [mapGet_apps, mapGet_apps, List.filter_append, List.filter_append,
    filter_reprsOf, filter_reprsOf]
  have hGf : ∀ r ∈ g.filter (fun x => x.title == t), isGoogleApp r = true :=
    fun r hr => hG r (List.mem_filter.mp hr).1
  have hAf : ∀ r ∈ a.filter (fun x => x.title == t), isGoogleApp r = false :=
    fun r hr => hA r (List.mem_filter.mp hr).1
  have hGt : ∀ r ∈ (lastWith g t).toList, isGoogleApp r = true :=
    fun r hr => hG r (mem_toList_lastWith g t r hr)
  have hAt : ∀ r ∈ (lastWith a t).toList, isGoogleApp r = false :=
    fun r hr => hA r (mem_toList_lastWith a t r hr)
  by_cases hE : g.filter (fun r => r.title == t) = [] ∧ a.filter (fun r => r.title == t) = []
  · obtain ⟨h1, h2⟩ := hE
    rw [h1, h2, (lastWith_eq_none_iff g t).mpr h1, (lastWith_eq_none_iff a t).mpr h2]
    rfl
  · have hne1 : ((lastWith g t).toList ++ (lastWith a t).toList) ≠ [] := by
      intro hc
      obtain ⟨hc1, hc2⟩ := List.append_eq_nil.mp hc
      apply hE
      constructor
      · rw [← lastWith_eq_none_iff]
        cases hq : lastWith g t with
        | none => rfl
        | some x =>
          rw [hq] at hc1
          simp [Option.toList] at hc1
      · rw [← lastWith_eq_none_iff]
        cases hq : lastWith a t with
        | none => rfl
        | some x =>
          rw [hq] at hc2
          simp [Option.toList] at hc2
    have hne2 : (g.filter (fun r => r.title == t) ++ a.filter (fun r => r.title == t)) ≠ [] := by
      intro hc
      exact hE (List.append_eq_nil.mp hc)
    rw [if_neg (by simpa [List.isEmpty_iff] using hne1),
      if_neg (by simpa [List.isEmpty_iff] using hne2)]
    exact congrArg some (foldl_applyData_eq_of_getLast _ _ _ _ hGt hGf hAt hAf
      (by rw [getLast_toList_lastWith]; rfl) (by rw [getLast_toList_lastWith]; rfl))

/-- C8: when the two raw arrays are classified the way the stores deliver
them (every Google record carries the summary field, no Apple record does),
running the Cross-Source Merger on the per-source deduplicated data — one
record per title, which by the second and third conjuncts is exactly what
the per-source Deduplicator retains — produces the identical final map as
running it on the raw concatenation; in particular the merger's output is a
function of the raw arrays alone and uses nothing from the Deduplicator. -/
theorem C8_merge_on_deduplicated_equals_raw (g a : List SrcApp)
    (hG : ∀ r ∈ g, isGoogleApp r = true) (hA : ∀ r ∈ a, isGoogleApp r = false) :
    apps (reprsOf g) (reprsOf a) = apps g a ∧
    filteredGoogleApps g =
      (reprsOf g).map (fun r => (r.title, newCombinedApp.addGoogleAppData r)) ∧
    filteredAppleApps a =
      (reprsOf a).map (fun r => (r.title, newCombinedApp.addAppleAppData r)) := by
  refine ⟨?_, filteredGoogleApps_eq_reprs g, filteredAppleApps_eq_reprs a⟩
  apply appmap_ext
  · rw [keys_apps, keys_apps, List.map_append, List.map_append, map_title_reprsOf,
      map_title_reprsOf, firstOccur_append_firstOccur]
  · exact nodup_keys_apps _ _
  · intro t
    exact mapGet_apps_reprs g a hG hA t

/-- Witness for C8 on the concrete scenario arrays. -/
theorem C8_merge_on_deduplicated_equals_raw_witness :
    (∀ r ∈ scenarioGoogle, isGoogleApp r = true) ∧
    (∀ r ∈ scenarioApple, isGoogleApp r = false) ∧
    (apps (reprsOf scenarioGoogle) (reprsOf scenarioApple) =
        apps scenarioGoogle scenarioApple ∧
      filteredGoogleApps scenarioGoogle =
        (reprsOf scenarioGoogle).map
          (fun r => (r.title, newCombinedApp.addGoogleAppData r)) ∧
      filteredAppleApps scenarioApple =
        (reprsOf scenarioApple).map
          (fun r => (r.title, newCombinedApp.addAppleAppData r))) :=
  ⟨by decide, by decide,
    C8_merge_on_deduplicated_equals_raw scenarioGoogle scenarioApple
      (by decide) (by decide)⟩

end Scraper
